import Mathlib

/-!
Verification development for the Mach-O object-file model and binary emitter
excerpt of this repository: the llvm-objcopy Mach-O `Object` mutation
operations (Object.cpp) and the yaml2obj Mach-O writer (MachOEmitter.cpp).

The embedding is shallow: C++ vectors become `List`, machine integers become
`Nat` with explicit `% 2 ^ w` where C++ wrap-around matters, `Error`-returning
member functions that mutate `this` become functions returning the final
object state together with an `Option String` error, and a `raw_ostream`
write sequence becomes the `List Nat` of emitted byte values.
-/

/-- Single-quote character as a string, used to build error-message literals. -/
def squote : String := (Char.ofNat 39).toString

namespace ObjCopy

/-! ### Data model of the llvm-objcopy MachO `Object` (Object.h / Object.cpp)

Load-command type constants from llvm/BinaryFormat/MachO.h (the header is not
part of this excerpt; the values are the public Mach-O format constants). -/

def LC_SEGMENT : Nat := 0x1
def LC_SYMTAB : Nat := 0x2
def LC_DYSYMTAB : Nat := 0xb
def LC_SEGMENT_64 : Nat := 0x19
def LC_DYLD_INFO : Nat := 0x22
def LC_DYLD_INFO_ONLY : Nat := 0x80000022
def LC_FUNCTION_STARTS : Nat := 0x26
def LC_DATA_IN_CODE : Nat := 0x29

/-- RelocationInfo: the ownership-free back-reference `Optional<SymbolEntry *>`
is modelled as an optional index into the owning `SymbolTable.Symbols` list
(`none` models an absent or null pointer). -/
structure RelocationInfo where
  symbol : Option Nat
deriving DecidableEq, Repr

/-- Section: the fields of the llvm-objcopy `Section` that `removeSections`
reads or writes (its 1-based `Index`, its `CanonicalName` used in the error
message, and its relocation list). -/
structure Section where
  Index : Nat
  CanonicalName : String
  Relocations : List RelocationInfo
deriving DecidableEq, Repr

/-- LoadCommand: the raw `cmd` value of the underlying
`MachO::macho_load_command`, the segment name (meaningful for segment
commands), and the owned sections (non-empty only for segment commands). -/
structure LoadCommand where
  cmd : Nat
  segname : String
  Sections : List Section
deriving DecidableEq, Repr

/-- SymbolEntry: `n_sect` models the result of `SymbolEntry::section()`, the
optional 1-based defining-section index (`none` models `MachO::NO_SECT`). -/
structure SymbolEntry where
  Name : String
  n_sect : Option Nat
deriving DecidableEq, Repr

structure SymbolTable where
  Symbols : List SymbolEntry
deriving DecidableEq, Repr

/-- Object: load commands, symbol table, and the five cached special
load-command indices maintained by `updateLoadCommandIndexes`. -/
structure Object where
  is64 : Bool
  LoadCommands : List LoadCommand
  SymTable : SymbolTable
  SymTabCommandIndex : Option Nat
  DySymTabCommandIndex : Option Nat
  DyLdInfoCommandIndex : Option Nat
  DataInCodeCommandIndex : Option Nat
  FunctionStartsCommandIndex : Option Nat
deriving DecidableEq, Repr

/-! ### Object::removeSections (Object.cpp)

Phase 1 of `removeSections`: per load command, `std::stable_partition` keeps
the sections the predicate rejects (in order), records each kept section in
`OldIndexToSection` keyed by its old index, and assigns it the running
1-based `NextSectionIndex`.  The DenseMap is modelled as an association list
whose most recent insertion is consed to the front, so `List.lookup` (first
match) gives DenseMap overwrite semantics. -/

def renumberSecs (toRemove : Section → Bool) :
    Nat → List (Nat × Nat) → List Section → Nat × List (Nat × Nat) × List Section
  | next, m, [] => (next, m, [])
  | next, m, s :: rest =>
    if toRemove s then renumberSecs toRemove next m rest
    else
      let r := renumberSecs toRemove (next + 1) ((s.Index, next) :: m) rest
      (r.1, r.2.1, { s with Index := next } :: r.2.2)

/-- Phase 1 over the whole load-command list, threading `NextSectionIndex`
and `OldIndexToSection` across segment commands in order. -/
def renumberLCs (toRemove : Section → Bool) :
    Nat → List (Nat × Nat) → List LoadCommand →
      Nat × List (Nat × Nat) × List LoadCommand
  | next, m, [] => (next, m, [])
  | next, m, lc :: rest =>
    let r := renumberSecs toRemove next m lc.Sections
    let r2 := renumberLCs toRemove r.1 r.2.1 rest
    (r2.1, r2.2.1, { lc with Sections := r.2.2 } :: r2.2.2)

/-- IsDead from `removeSections`: a symbol is dead when it has a defining
section and the old index of that section is absent from `OldIndexToSection`. -/
def isDead (m : List (Nat × Nat)) (s : SymbolEntry) : Bool :=
  match s.n_sect with
  | some sec => (m.lookup sec).isNone
  | none => false

/-- Resolution of the symbol back-reference of one relocation against the dead-set:
returns the referenced symbol when the relocation has one and it is dead. -/
def offendingSymbol (syms : List SymbolEntry) (m : List (Nat × Nat))
    (r : RelocationInfo) : Option SymbolEntry :=
  match r.symbol with
  | some j =>
    match syms[j]? with
    | some sym => if isDead m sym then some sym else none
    | none => none
  | none => none

/-- Surviving (section, relocation) pairs in the iteration order of the
dangling-relocation scan in `removeSections` (load commands, then sections,
then relocations). -/
def relocTriples (lcs : List LoadCommand) : List (Section × RelocationInfo) :=
  lcs.flatMap fun lc =>
    lc.Sections.flatMap fun sec => sec.Relocations.map fun r => (sec, r)

/-- First relocation (in scan order) that references a dead symbol, together
with that symbol. -/
def firstDanglingReloc (syms : List SymbolEntry) (m : List (Nat × Nat)) :
    List (Section × RelocationInfo) → Option (SymbolEntry × Section)
  | [] => none
  | (sec, r) :: rest =>
    match offendingSymbol syms m r with
    | some sym => some (sym, sec)
    | none => firstDanglingReloc syms m rest

/-- Error message of `createStringError` in `removeSections`. -/
def removeSectionsErrMsg (name : String) (secIdx : Nat) (refSec : String) :
    String :=
  "symbol " ++ squote ++ name ++ squote ++ " defined in section with index " ++ squote ++
    toString secIdx ++ squote ++
    " cannot be removed because it is referenced by a relocation in section " ++
    squote ++ refSec ++ squote

/-- Rewrite of the section back-reference of a surviving symbol:
`S->n_sect = OldIndexToSection[S->n_sect]->Index` (the lookup always succeeds
for a surviving symbol; `getD 0` is never reached on that path). -/
def rewriteSymbol (m : List (Nat × Nat)) (s : SymbolEntry) : SymbolEntry :=
  match s.n_sect with
  | some sec => { s with n_sect := some ((m.lookup sec).getD 0) }
  | none => s

/-- Object::removeSections.  Returns the final state of the object (the C++
method mutates `this` in place) together with the error, `none` on success.
On the error path the section lists have already been partitioned and
re-indexed but the symbol table is untouched. -/
def removeSections (toRemove : Section → Bool) (o : Object) :
    Object × Option String :=
  let r := renumberLCs toRemove 1 [] o.LoadCommands
  let m := r.2.1
  let newLCs := r.2.2
  match firstDanglingReloc o.SymTable.Symbols m (relocTriples newLCs) with
  | some (sym, sec) =>
    ({ o with LoadCommands := newLCs },
      some (removeSectionsErrMsg sym.Name (sym.n_sect.getD 0)
        sec.CanonicalName))
  | none =>
    ({ o with
        LoadCommands := newLCs,
        SymTable :=
          ⟨(o.SymTable.Symbols.filter (fun s => !isDead m s)).map
            (rewriteSymbol m)⟩ },
      none)

/-! ### Object::updateLoadCommandIndexes and the other mutation operations -/

/-- One iteration of the `switch` in `updateLoadCommandIndexes`: sets the
cached index field matching the `cmd` value of the command to the current
position; all other commands leave the object unchanged. -/
def applyCmdIndex (i : Nat) (c : Nat) (o : Object) : Object :=
  if c = LC_SYMTAB then { o with SymTabCommandIndex := some i }
  else if c = LC_DYSYMTAB then { o with DySymTabCommandIndex := some i }
  else if c = LC_DYLD_INFO ∨ c = LC_DYLD_INFO_ONLY then
    { o with DyLdInfoCommandIndex := some i }
  else if c = LC_DATA_IN_CODE then { o with DataInCodeCommandIndex := some i }
  else if c = LC_FUNCTION_STARTS then
    { o with FunctionStartsCommandIndex := some i }
  else o

def updateIndexesAux : Nat → List LoadCommand → Object → Object
  | _, [], o => o
  | i, lc :: rest, o => updateIndexesAux (i + 1) rest (applyCmdIndex i lc.cmd o)

/-- Object::updateLoadCommandIndexes: walks `LoadCommands` and records the
position of each special command encountered (it never clears a field when
no command of that type is present). -/
def updateLoadCommandIndexes (o : Object) : Object :=
  updateIndexesAux 0 o.LoadCommands o

/-- Object::removeLoadCommands: stable erase of the matching commands,
followed by `updateLoadCommandIndexes`. -/
def removeLoadCommands (toRemove : LoadCommand → Bool) (o : Object) : Object :=
  updateLoadCommandIndexes
    { o with LoadCommands := o.LoadCommands.filter (fun lc => !toRemove lc) }

/-- Object::addLoadCommand: appends the command, nothing else. -/
def addLoadCommand (lc : LoadCommand) (o : Object) : Object :=
  { o with LoadCommands := o.LoadCommands ++ [lc] }

/-- constructSegment: a zero-initialized segment command of the bitness-matching
variant with the given name. -/
def constructSegmentLC (is64 : Bool) (segName : String) : LoadCommand :=
  { cmd := if is64 then LC_SEGMENT_64 else LC_SEGMENT,
    segname := segName, Sections := [] }

/-- Object::addSegment: appends a fresh segment command, nothing else. -/
def addSegment (segName : String) (o : Object) : Object :=
  { o with LoadCommands := o.LoadCommands ++ [constructSegmentLC o.is64 segName] }

/-- The five special load-command kinds whose positions the object caches. -/
inductive SpecialKind where
  | symtab
  | dysymtab
  | dyldInfo
  | dataInCode
  | functionStarts
deriving DecidableEq, Repr

def matchesKind : SpecialKind → Nat → Bool
  | .symtab, c => c == LC_SYMTAB
  | .dysymtab, c => c == LC_DYSYMTAB
  | .dyldInfo, c => c == LC_DYLD_INFO || c == LC_DYLD_INFO_ONLY
  | .dataInCode, c => c == LC_DATA_IN_CODE
  | .functionStarts, c => c == LC_FUNCTION_STARTS

def cachedIndex : SpecialKind → Object → Option Nat
  | .symtab, o => o.SymTabCommandIndex
  | .dysymtab, o => o.DySymTabCommandIndex
  | .dyldInfo, o => o.DyLdInfoCommandIndex
  | .dataInCode, o => o.DataInCodeCommandIndex
  | .functionStarts, o => o.FunctionStartsCommandIndex

/-- Position of the last command matching a kind, if any (the value the
`updateLoadCommandIndexes` loop leaves in the cached field). -/
def lastMatchPos (k : SpecialKind) : List LoadCommand → Option Nat
  | [] => none
  | lc :: rest =>
    match lastMatchPos k rest with
    | some j => some (j + 1)
    | none => if matchesKind k lc.cmd then some 0 else none

/-- All sections of the load commands of an object, flattened in command order. -/
def allSections (lcs : List LoadCommand) : List Section :=
  lcs.flatMap LoadCommand.Sections

/-- A section with its index forgotten, to compare section lists modulo the
re-indexing that `removeSections` performs. -/
def eraseIndex (s : Section) : Section :=
  { s with Index := 0 }

end ObjCopy

namespace Emitter

/-! ### Data model of the yaml2obj Mach-O writer (MachOEmitter.cpp)

The writer emits to a `raw_ostream`; the embedding represents the emitted
stream as a `List Nat` of byte values and the stream position relative to
`fileStart` as a `Nat` threaded through the phase functions. -/

/-- Subtraction of `size_t` values (unsigned 64-bit, wraps around). -/
def usub64 (a b : Nat) : Nat := (2 ^ 64 + a - b) % 2 ^ 64

/-- ZeroToOffset (the identical methods of MachOWriter and UniversalWriter): the zero bytes
emitted to advance from position `pos` to `offset`; nothing when the stream
is already at or past `offset`. -/
def ZeroToOffset (pos offset : Nat) : List Nat := List.replicate (offset - pos) 0

/-- Relocation (MachOYAML::Relocation).  Field widths in the YAML model:
`address` and `value` are 64-bit, `symbolnum` 32-bit, `length` and the
relocation type 8-bit; the booleans are the pc-rel, extern and scattered
flags.  The C++ field `is_extern` is called `is_ext` here and `type` is
called `rtype` (both renamings forced by the Lean surface syntax). -/
structure Relocation where
  address : Nat
  symbolnum : Nat
  is_pcrel : Bool
  length : Nat
  is_ext : Bool
  rtype : Nat
  is_scattered : Bool
  value : Nat
deriving DecidableEq, Repr

/-- Section (MachOYAML::Section): name pair, layout fields, optional inline
content bytes, and the relocation list.  `structImage` carries the byte image
of the fixed-size `MachO::section`/`section_64` struct that
`writeLoadCommandData` emits for this section (the struct serialization and
its byte-order swap are length-preserving and are modelled as given data). -/
structure Section where
  segname : String
  sectname : String
  addr : Nat
  size : Nat
  offset : Nat
  align : Nat
  reloff : Nat
  nreloc : Nat
  flags : Nat
  content : Option (List Nat)
  structImage : List Nat
  relocations : List Relocation
deriving DecidableEq, Repr

/-- Load-command tag with the typed-header fields the writer phases read.
The closed variant set covers the command types the emitter distinguishes
(`segment`/`segment_64` for section data, `symtab` and `dyld_info_only` for
link-edit data, the string-payload and build-version commands for trailing
data); `generic` is the `default` switch case emitting the plain 8-byte
`MachO::load_command` header. -/
inductive LCCmd where
  | segment (fileoff filesize : Nat)
  | segment64 (fileoff filesize : Nat)
  | symtab (symoff stroff : Nat)
  | dyldInfoOnly (rebaseOff bindOff weakBindOff lazyBindOff exportOff : Nat)
  | dylib
  | dylinker
  | rpath
  | buildVersion
  | generic (cmd : Nat)
deriving DecidableEq, Repr

/-- LoadCommand (MachOYAML::LoadCommand).  `hdr` carries the byte image of
the typed command header struct that the macro-expanded switch writes (the
in-memory bytes of the struct after the conditional byte-order swap, which is a
length-preserving permutation); `tools` the byte images of the
`build_tool_version` entries; `payloadBytes` and `zeroPadBytes` the explicit
trailing payload and pad. -/
structure LoadCommand where
  cmd : LCCmd
  cmdsize : Nat
  segname : String
  sections : List Section
  payloadString : String
  payloadBytes : List Nat
  zeroPadBytes : Nat
  tools : List (List Nat)
  hdr : List Nat
deriving DecidableEq, Repr

/-- LinkEditData (MachOYAML::LinkEditData): the seven link-edit sub-streams.
The byte contents produced by the seven stream writers (`writeRebaseOpcodes`,
`writeBindOpcodes` for the three bind flavours, `writeExportTrie`,
`writeNameList`, `writeStringTable`) are modelled as given byte lists; none
of the verified properties depend on their internal encoding. -/
structure LinkEditData where
  rebaseBytes : List Nat
  bindBytes : List Nat
  weakBindBytes : List Nat
  lazyBindBytes : List Nat
  exportTrieBytes : List Nat
  nameListBytes : List Nat
  stringTableBytes : List Nat
deriving DecidableEq, Repr

/-- Object (MachOYAML::Object): declared endianness, load commands, link-edit
data. -/
structure Object where
  isLE : Bool
  loadCommands : List LoadCommand
  linkEdit : LinkEditData
deriving DecidableEq, Repr

/-- Size in bytes of the typed header struct emitted for each command tag
(`sizeof` of the corresponding `MachO` struct). -/
def cmdHdrSize : LCCmd → Nat
  | .segment _ _ => 56
  | .segment64 _ _ => 72
  | .symtab _ _ => 24
  | .dyldInfoOnly _ _ _ _ _ => 48
  | .dylib => 24
  | .dylinker => 12
  | .rpath => 12
  | .buildVersion => 24
  | .generic _ => 8

/-- Size of the per-section struct emitted as segment-command trailing data
(`sizeof(MachO::section)` = 68, `sizeof(MachO::section_64)` = 80). -/
def sectImageSize : LCCmd → Nat
  | .segment _ _ => 68
  | .segment64 _ _ => 80
  | _ => 0

/-- Byte values of a payload string (writePayloadString writes the raw
characters, no null terminator; an empty string writes nothing). -/
def stringBytes (s : String) : List Nat := s.toList.map Char.toNat

/-- Type-specific trailing data of writeLoadCommandData: section structs for
segment commands, the payload string for dylib/dylinker/rpath commands, the
build-tool-version structs for build-version commands, nothing otherwise. -/
def lcTrailing (lc : LoadCommand) : List Nat :=
  match lc.cmd with
  | .segment _ _ => (lc.sections.map Section.structImage).flatten
  | .segment64 _ _ => (lc.sections.map Section.structImage).flatten
  | .dylib => stringBytes lc.payloadString
  | .dylinker => stringBytes lc.payloadString
  | .rpath => stringBytes lc.payloadString
  | .buildVersion => lc.tools.flatten
  | _ => []

/-- Byte count of the trailing data, written with the struct sizes. -/
def lcTrailingSize (lc : LoadCommand) : Nat :=
  match lc.cmd with
  | .segment _ _ => 68 * lc.sections.length
  | .segment64 _ _ => 80 * lc.sections.length
  | .dylib => (stringBytes lc.payloadString).length
  | .dylinker => (stringBytes lc.payloadString).length
  | .rpath => (stringBytes lc.payloadString).length
  | .buildVersion => 8 * lc.tools.length
  | _ => 0

/-- Bytes one load command contributes before the final cmdsize zero-fill:
typed header struct, type-specific trailing data, explicit payload bytes,
explicit zero-pad bytes. -/
def emitLoadCommandPre (lc : LoadCommand) : List Nat :=
  lc.hdr ++ lcTrailing lc ++ lc.payloadBytes ++ List.replicate lc.zeroPadBytes 0

/-- Full per-command emission of writeLoadCommands: the pre-fill bytes
followed by the implicit zero-fill of `cmdsize - BytesWritten`, a `size_t`
subtraction that wraps when the pre-fill bytes exceed `cmdsize`. -/
def emitLoadCommand (lc : LoadCommand) : List Nat :=
  emitLoadCommandPre lc ++
    List.replicate (usub64 lc.cmdsize (emitLoadCommandPre lc).length) 0

/-- MachOWriter::writeLoadCommands: the emission of each command, concatenated. -/
def writeLoadCommands (o : Object) : List Nat :=
  (o.loadCommands.map emitLoadCommand).flatten

/-! ### Phase 5: writeLinkEditData -/

/-- The seven link-edit write handlers (member-function pointers in the C++
write queue). -/
inductive LEWriter where
  | nameList
  | stringTable
  | rebase
  | bind
  | weakBind
  | lazyBind
  | exportTrie
deriving DecidableEq, Repr

def runLEWriter (le : LinkEditData) : LEWriter → List Nat
  | .nameList => le.nameListBytes
  | .stringTable => le.stringTableBytes
  | .rebase => le.rebaseBytes
  | .bind => le.bindBytes
  | .weakBind => le.weakBindBytes
  | .lazyBind => le.lazyBindBytes
  | .exportTrie => le.exportTrieBytes

/-- WriteQueue collection of writeLinkEditData: the symtab command
contributes the symbol-list and string-table writes at `symoff`/`stroff`, the
dyld-info-only command the five opcode/trie writes at their declared offsets;
commands are scanned in declaration order. -/
def collectLEOps : List LoadCommand → List (Nat × LEWriter)
  | [] => []
  | lc :: rest =>
    match lc.cmd with
    | .symtab symoff stroff =>
      (symoff, .nameList) :: (stroff, .stringTable) :: collectLEOps rest
    | .dyldInfoOnly r b w l e =>
      (r, .rebase) :: (b, .bind) :: (w, .weakBind) :: (l, .lazyBind) ::
        (e, .exportTrie) :: collectLEOps rest
    | _ => collectLEOps rest

/-- Insertion step of the offset sort of the write queue. -/
def insertLEOp (x : Nat × LEWriter) : List (Nat × LEWriter) → List (Nat × LEWriter)
  | [] => [x]
  | y :: ys => if x.1 ≤ y.1 then x :: y :: ys else y :: insertLEOp x ys

/-- The `llvm::sort` of the write queue by ascending target offset, modelled
as an insertion sort (any sort satisfying the `a.first < b.first` comparator
yields a queue sorted by offset; ties have unspecified order in `llvm::sort`
and keep declaration order here). -/
def sortLEOps : List (Nat × LEWriter) → List (Nat × LEWriter)
  | [] => []
  | x :: xs => insertLEOp x (sortLEOps xs)

/-- Execution of the sorted write queue: zero-pad the sink to each
declared offset of each operation, then run its handler. -/
def execLEOps (le : LinkEditData) : Nat → List (Nat × LEWriter) → List Nat
  | _, [] => []
  | pos, op :: rest =>
    let pad := ZeroToOffset pos op.1
    let body := runLEWriter le op.2
    pad ++ body ++ execLEOps le (pos + pad.length + body.length) rest

/-- MachOWriter::writeLinkEditData, starting at stream position `pos`
(relative to `fileStart`). -/
def writeLinkEditData (o : Object) (pos : Nat) : List Nat :=
  execLEOps o.linkEdit pos (sortLEOps (collectLEOps o.loadCommands))

/-! ### Relocation records (makeRelocationInfo / writeRelocations) -/

/-- Numeric value of a C++ bool in the bit-packing expressions. -/
def b2n (b : Bool) : Nat := if b then 1 else 0

/-- makeRelocationInfo: word0 is the (32-bit truncated) address; word1 packs
symbolnum / pc-rel / length / extern / type with the little-endian layout for
little-endian targets and the mirrored big-endian layout otherwise.  Each
term is computed in `unsigned` (32-bit) arithmetic: stored field widths are
applied (`symbolnum` 32-bit, `length` and the type 8-bit) and shifts that can
exceed 32 bits wrap modulo `2 ^ 32`. -/
def makeRelocationInfo (r : Relocation) (isLE : Bool) : Nat × Nat :=
  let sym := r.symbolnum % 2 ^ 32
  let len := r.length % 2 ^ 8
  let ty := r.rtype % 2 ^ 8
  let word1 :=
    if isLE then
      sym ||| (b2n r.is_pcrel <<< 24) ||| ((len <<< 25) % 2 ^ 32) |||
        (b2n r.is_ext <<< 27) ||| ((ty <<< 28) % 2 ^ 32)
    else
      ((sym <<< 8) % 2 ^ 32) ||| (b2n r.is_pcrel <<< 7) ||| (len <<< 5) |||
        (b2n r.is_ext <<< 4) ||| ty
  (r.address % 2 ^ 32, word1)

/-- makeScatteredRelocationInfo: word0 packs address / type / length / pc-rel
with the `R_SCATTERED` marker bit; word1 is the raw value. -/
def makeScatteredRelocationInfo (r : Relocation) : Nat × Nat :=
  ((r.address % 2 ^ 32) ||| (((r.rtype % 2 ^ 8) <<< 24) % 2 ^ 32) |||
      (((r.length % 2 ^ 8) <<< 28) % 2 ^ 32) ||| (b2n r.is_pcrel <<< 30) |||
      2 ^ 31,
    r.value % 2 ^ 32)

/-- Byte-order reversal of a 32-bit word. -/
def bswap32 (w : Nat) : Nat :=
  (w % 2 ^ 8) * 2 ^ 24 + (w / 2 ^ 8 % 2 ^ 8) * 2 ^ 16 +
    (w / 2 ^ 16 % 2 ^ 8) * 2 ^ 8 + w / 2 ^ 24 % 2 ^ 8

/-- MachO::swapStruct on `any_relocation_info`: byte-swap of each word. -/
def swapRelocationRecord (p : Nat × Nat) : Nat × Nat := (bswap32 p.1, bswap32 p.2)

/-- The record writeRelocations emits for one relocation: the scattered or
plain encoding, byte-swapped as a unit exactly when the declared endianness
differs from the host byte order. -/
def emitRelocationRecord (isLE hostLE : Bool) (r : Relocation) : Nat × Nat :=
  let mre :=
    if r.is_scattered then makeScatteredRelocationInfo r
    else makeRelocationInfo r isLE
  if isLE != hostLE then swapRelocationRecord mre else mre

/-! ### Phase 3: writeSectionData -/

/-- Byte image of a 32-bit word in host memory order. -/
def wordBytesHost (hostLE : Bool) (w : Nat) : List Nat :=
  if hostLE then
    [w % 2 ^ 8, w / 2 ^ 8 % 2 ^ 8, w / 2 ^ 16 % 2 ^ 8, w / 2 ^ 24 % 2 ^ 8]
  else
    [w / 2 ^ 24 % 2 ^ 8, w / 2 ^ 16 % 2 ^ 8, w / 2 ^ 8 % 2 ^ 8, w % 2 ^ 8]

/-- Fill: writes `size` bytes taken from a `std::vector<uint32_t>` holding
`size / 4 + 1` copies of `data`, i.e. the repeating host-byte-order image of
`data` truncated to `size` bytes. -/
def Fill (hostLE : Bool) (size data : Nat) : List Nat :=
  List.take size (List.flatten (List.replicate (size / 4 + 1) (wordBytesHost hostLE data)))

/-- MachO::isVirtualSection (llvm/BinaryFormat/MachO.h, not part of this
excerpt; the spec calls these the "virtual (zero-fill) sections"): section
types S_ZEROFILL, S_GB_ZEROFILL, S_THREAD_LOCAL_ZEROFILL. -/
def isVirtualSection (t : Nat) : Bool := t == 0x1 || t == 0xc || t == 0x12

/-- The eight `__DWARF` section names writeSectionData special-cases. -/
def dwarfSectionNames : List String :=
  ["__debug_str", "__debug_abbrev", "__debug_aranges", "__debug_ranges",
   "__debug_pubnames", "__debug_pubtypes", "__debug_info", "__debug_line"]

/-- The invalid-argument message for non-monotone section offsets. -/
def sectionOffsetErr : String :=
  "wrote too much data somewhere, section offsets don" ++ squote ++ "t line up"

/-- Per-section emission body (after the offset padding and the monotonicity
check): `__DWARF` sections delegate to the external debug emitters (modelled
by the `dwarf` parameter, keyed by section name; unmatched names emit
nothing), virtual sections are skipped, sections with content emit it
zero-filled to the declared size (a `size_t` subtraction), contentless
sections emit the 0xDEADBEEF fill. -/
def emitSectionBody (hostLE : Bool) (dwarf : String → Except String (List Nat))
    (sec : Section) : Except String (List Nat) :=
  if sec.segname == "__DWARF" then
    if sec.sectname ∈ dwarfSectionNames then dwarf sec.sectname else .ok []
  else if isVirtualSection (sec.flags &&& 0xff) then .ok []
  else
    match sec.content with
    | some c => .ok (c ++ List.replicate (usub64 sec.size c.length) 0)
    | none => .ok (Fill hostLE sec.size 0xDEADBEEF)

/-- The per-section loop of writeSectionData over the sections of one
segment: zero-pad to the declared file offset of the section, fail if the stream already
moved past a nonzero offset, then emit the section body.  Returns the bytes
emitted and the final position. -/
def writeSections (hostLE : Bool) (dwarf : String → Except String (List Nat)) :
    Nat → List Section → Except String (List Nat × Nat)
  | pos, [] => .ok ([], pos)
  | pos, sec :: rest =>
    let pad := ZeroToOffset pos sec.offset
    let pos1 := pos + pad.length
    if pos1 > sec.offset ∧ sec.offset ≠ 0 then .error sectionOffsetErr
    else
      match emitSectionBody hostLE dwarf sec with
      | .error e => .error e
      | .ok body =>
        match writeSections hostLE dwarf (pos1 + body.length) rest with
        | .error e => .error e
        | .ok (bs, pend) => .ok (pad ++ body ++ bs, pend)

/-- MachOWriter::writeSectionData: iterates the segment commands; a segment
named `__LINKEDIT` first emits the whole link-edit block (recording
`FoundLinkEditSeg`); then the sections of the segment are emitted and the
stream is padded to the segment `fileoff + filesize`.  Returns the bytes emitted,
the final position and the `FoundLinkEditSeg` flag. -/
def writeSectionData (hostLE : Bool) (dwarf : String → Except String (List Nat))
    (o : Object) :
    Nat → Bool → List LoadCommand → Except String (List Nat × Nat × Bool)
  | pos, found, [] => .ok ([], pos, found)
  | pos, found, lc :: rest =>
    match lc.cmd with
    | .segment fileoff filesize | .segment64 fileoff filesize =>
      let le := if lc.segname == "__LINKEDIT" then writeLinkEditData o pos else []
      let found1 := found || lc.segname == "__LINKEDIT"
      let pos1 := pos + le.length
      match writeSections hostLE dwarf pos1 lc.sections with
      | .error e => .error e
      | .ok (secB, pos2) =>
        let pad := ZeroToOffset pos2 (fileoff + filesize)
        match writeSectionData hostLE dwarf o (pos2 + pad.length) found1 rest with
        | .error e => .error e
        | .ok (bs, pend, fnd) => .ok (le ++ secB ++ pad ++ bs, pend, fnd)
    | _ => writeSectionData hostLE dwarf o pos found rest

/-! ### Universal (fat) writer -/

/-- Big-endian byte image of a 32-bit field (the low 32 bits of `n`). -/
def be32 (n : Nat) : List Nat :=
  [n / 2 ^ 24 % 2 ^ 8, n / 2 ^ 16 % 2 ^ 8, n / 2 ^ 8 % 2 ^ 8, n % 2 ^ 8]

/-- Big-endian byte image of a 64-bit field. -/
def be64 (n : Nat) : List Nat :=
  [n / 2 ^ 56 % 2 ^ 8, n / 2 ^ 48 % 2 ^ 8, n / 2 ^ 40 % 2 ^ 8,
   n / 2 ^ 32 % 2 ^ 8, n / 2 ^ 24 % 2 ^ 8, n / 2 ^ 16 % 2 ^ 8,
   n / 2 ^ 8 % 2 ^ 8, n % 2 ^ 8]

def FAT_MAGIC_64 : Nat := 0xcafebabf

/-- FatArch (MachOYAML::FatArch). -/
structure FatArch where
  cputype : Nat
  cpusubtype : Nat
  offset : Nat
  size : Nat
  align : Nat
  reserved : Nat
deriving DecidableEq, Repr

/-- FatFile (MachOYAML::UniversalBinary): fat header fields, arch table,
slices. -/
structure FatFile where
  magic : Nat
  nfat_arch : Nat
  fatArchs : List FatArch
  slices : List Object
deriving DecidableEq, Repr

/-- YamlObjectFile: either a single Mach-O image or a fat collection. -/
inductive YamlDoc where
  | single (obj : Object)
  | fat (ff : FatFile)

/-- UniversalWriter::writeFatHeader: magic and arch count, always big-endian
on disk (the struct is byte-swapped exactly when the host is little-endian,
so the emitted bytes are host-independent). -/
def fatHeaderBytes (ff : FatFile) : List Nat :=
  be32 ff.magic ++ be32 ff.nfat_arch

/-- writeFatArch for the 32-bit `MachO::fat_arch` (20 bytes, big-endian). -/
def fatArchBytes32 (a : FatArch) : List Nat :=
  be32 a.cputype ++ be32 a.cpusubtype ++ be32 a.offset ++ be32 a.size ++
    be32 a.align

/-- writeFatArch for the 64-bit `MachO::fat_arch_64` (32 bytes, big-endian). -/
def fatArchBytes64 (a : FatArch) : List Nat :=
  be32 a.cputype ++ be32 a.cpusubtype ++ be64 a.offset ++ be64 a.size ++
    be32 a.align ++ be32 a.reserved

/-- UniversalWriter::writeFatArchs: one entry per declared architecture, the
64-bit variant exactly when the fat magic is `FAT_MAGIC_64`. -/
def fatArchsBytes (ff : FatFile) : List Nat :=
  (ff.fatArchs.map fun a =>
    if ff.magic == FAT_MAGIC_64 then fatArchBytes64 a else fatArchBytes32 a).flatten

/-- The invalid-argument message for more slices than arch-table entries. -/
def fatSlicesErr : String :=
  "cannot write " ++ squote ++ "Slices" ++ squote ++ " if not described in " ++
    squote ++ "FatArches" ++ squote

/-- The per-slice loop of UniversalWriter::writeMachO: pad to the declared
arch-table offset of the slice, emit the slice through a fresh single-image
writer (the `emitSlice` parameter, given the slice and its start position;
it returns the bytes it wrote and an optional error), then pad to
`offset + size`.  Returns bytes written and the first error. -/
def writeFatSlices (emitSlice : Object → Nat → List Nat × Option String) :
    Nat → List (FatArch × Object) → List Nat × Option String
  | _, [] => ([], none)
  | pos, (arch, sl) :: rest =>
    let pad1 := ZeroToOffset pos arch.offset
    let pos1 := pos + pad1.length
    let r := emitSlice sl pos1
    match r.2 with
    | some e => (pad1 ++ r.1, some e)
    | none =>
      let pos2 := pos1 + r.1.length
      let pad2 := ZeroToOffset pos2 (arch.offset + arch.size)
      let r2 := writeFatSlices emitSlice (pos2 + pad2.length) rest
      (pad1 ++ r.1 ++ pad2 ++ r2.1, r2.2)

/-- UniversalWriter::writeMachO: a single image delegates to the single-image
writer; a fat file writes the fat header and arch table, fails when more
slices are declared than arch-table entries, and otherwise writes each slice
between paddings.  Positions are relative to the `fileStart` of the
universal writer. -/
def universalWriteMachO (emitSlice : Object → Nat → List Nat × Option String) :
    YamlDoc → List Nat × Option String
  | .single obj => emitSlice obj 0
  | .fat ff =>
    let hdr := fatHeaderBytes ff
    let archs := fatArchsBytes ff
    if ff.fatArchs.length < ff.slices.length then
      (hdr ++ archs, some fatSlicesErr)
    else
      let r := writeFatSlices emitSlice (hdr.length + archs.length)
        (ff.fatArchs.zip ff.slices)
      (hdr ++ archs ++ r.1, r.2)

end Emitter

namespace ObjCopy

/-! ### Concrete objects used to instantiate the theorems -/

/-- Removal predicate selecting the section with (old) index 2. -/
def removePred2 : Section → Bool := fun s => s.Index == 2

/-- Object whose surviving section 1 holds a relocation referencing the
symbol defined in the removed section 2. -/
def danglingObject : Object :=
  { is64 := true,
    LoadCommands := [
      { cmd := LC_SEGMENT_64, segname := "__TEXT",
        Sections := [
          { Index := 1, CanonicalName := "__TEXT,__text",
            Relocations := [{ symbol := some 0 }] },
          { Index := 2, CanonicalName := "__TEXT,__gone",
            Relocations := [] }] }],
    SymTable := ⟨[{ Name := "_f", n_sect := some 2 }]⟩,
    SymTabCommandIndex := none, DySymTabCommandIndex := none,
    DyLdInfoCommandIndex := none, DataInCodeCommandIndex := none,
    FunctionStartsCommandIndex := none }

/-- Object on which removing section 2 succeeds: symbols A (in section 1),
B (in section 3, re-indexed to 2) and C (in the removed section 2). -/
def cleanObject : Object :=
  { is64 := true,
    LoadCommands := [
      { cmd := LC_SEGMENT_64, segname := "__TEXT",
        Sections := [
          { Index := 1, CanonicalName := "__TEXT,__text",
            Relocations := [{ symbol := some 0 }] },
          { Index := 2, CanonicalName := "__TEXT,__gone",
            Relocations := [] }] },
      { cmd := LC_SEGMENT_64, segname := "__DATA",
        Sections := [
          { Index := 3, CanonicalName := "__DATA,__data",
            Relocations := [] }] }],
    SymTable := ⟨[{ Name := "A", n_sect := some 1 },
      { Name := "B", n_sect := some 3 },
      { Name := "C", n_sect := some 2 }]⟩,
    SymTabCommandIndex := none, DySymTabCommandIndex := none,
    DyLdInfoCommandIndex := none, DataInCodeCommandIndex := none,
    FunctionStartsCommandIndex := none }

/-- Variant of `cleanObject` whose section 3 holds a relocation referencing
symbol C, which dies with section 2. -/
def dangling2Object : Object :=
  { is64 := true,
    LoadCommands := [
      { cmd := LC_SEGMENT_64, segname := "__TEXT",
        Sections := [
          { Index := 1, CanonicalName := "__TEXT,__text",
            Relocations := [] },
          { Index := 2, CanonicalName := "__TEXT,__gone",
            Relocations := [] }] },
      { cmd := LC_SEGMENT_64, segname := "__DATA",
        Sections := [
          { Index := 3, CanonicalName := "__DATA,__data",
            Relocations := [{ symbol := some 2 }] }] }],
    SymTable := ⟨[{ Name := "A", n_sect := some 1 },
      { Name := "B", n_sect := some 3 },
      { Name := "C", n_sect := some 2 }]⟩,
    SymTabCommandIndex := none, DySymTabCommandIndex := none,
    DyLdInfoCommandIndex := none, DataInCodeCommandIndex := none,
    FunctionStartsCommandIndex := none }

/-- Object with no load commands and no cached indices. -/
def emptyObject : Object :=
  { is64 := true, LoadCommands := [], SymTable := ⟨[]⟩,
    SymTabCommandIndex := none, DySymTabCommandIndex := none,
    DyLdInfoCommandIndex := none, DataInCodeCommandIndex := none,
    FunctionStartsCommandIndex := none }

def symtabLoadCommand : LoadCommand :=
  { cmd := LC_SYMTAB, segname := "", Sections := [] }

def dysymtabLoadCommand : LoadCommand :=
  { cmd := LC_DYSYMTAB, segname := "", Sections := [] }

/-- Object holding a dysymtab and a symtab command (cached indices unset). -/
def twoCmdObject : Object :=
  { is64 := true,
    LoadCommands := [dysymtabLoadCommand, symtabLoadCommand],
    SymTable := ⟨[]⟩,
    SymTabCommandIndex := none, DySymTabCommandIndex := none,
    DyLdInfoCommandIndex := none, DataInCodeCommandIndex := none,
    FunctionStartsCommandIndex := none }

end ObjCopy

namespace Emitter

/-! ### Concrete emitter inputs used to instantiate the theorems -/

/-- Generic command whose declared `cmdsize` (0) is smaller than its own
8-byte header. -/
def badGenericCommand : LoadCommand :=
  { cmd := .generic 0x99, cmdsize := 0, segname := "", sections := [],
    payloadString := "", payloadBytes := [], zeroPadBytes := 0, tools := [],
    hdr := [0, 0, 0, 0, 0, 0, 0, 0] }

/-- Well-formed dylinker command: 12-byte header, 13-byte path payload,
declared cmdsize 32 (7 bytes of implicit zero-fill). -/
def goodDylinkerCommand : LoadCommand :=
  { cmd := .dylinker, cmdsize := 32, segname := "", sections := [],
    payloadString := "/usr/lib/dyld", payloadBytes := [], zeroPadBytes := 0,
    tools := [], hdr := [12, 0, 0, 0, 32, 0, 0, 0, 12, 0, 0, 0] }

/-- Plain relocation with symbolnum 1 and all other fields zero, exhibiting
the little-endian/big-endian layout mirror. -/
def mirrorReloc : Relocation :=
  { address := 0, symbolnum := 1, is_pcrel := false, length := 0,
    is_ext := false, rtype := 0, is_scattered := false, value := 0 }

/-- Representative in-range plain relocation. -/
def sampleReloc : Relocation :=
  { address := 0x1234, symbolnum := 5, is_pcrel := true, length := 2,
    is_ext := false, rtype := 9, is_scattered := false, value := 0 }

/-- Section whose declared file offset 3 is before stream position 5. -/
def smallSection : Section :=
  { segname := "__TEXT", sectname := "__text", addr := 0, size := 4,
    offset := 3, align := 0, reloff := 0, nreloc := 0, flags := 0,
    content := none, structImage := [], relocations := [] }

/-- Contentless non-virtual 12-byte section outside `__DWARF`. -/
def dataSection : Section :=
  { segname := "__DATA", sectname := "__const", addr := 0, size := 12,
    offset := 0, align := 0, reloff := 0, nreloc := 0, flags := 0,
    content := none, structImage := [], relocations := [] }

def emptyLinkEdit : LinkEditData :=
  { rebaseBytes := [], bindBytes := [], weakBindBytes := [],
    lazyBindBytes := [], exportTrieBytes := [], nameListBytes := [],
    stringTableBytes := [] }

def emptyMachOObject : Object :=
  { isLE := true, loadCommands := [], linkEdit := emptyLinkEdit }

/-- Fat file declaring 2 architectures but 3 slices. -/
def fatMismatchFile : FatFile :=
  { magic := 0xcafebabe, nfat_arch := 2,
    fatArchs := [
      { cputype := 7, cpusubtype := 3, offset := 4096, size := 4096,
        align := 12, reserved := 0 },
      { cputype := 0x01000007, cpusubtype := 3, offset := 8192, size := 4096,
        align := 12, reserved := 0 }],
    slices := [emptyMachOObject, emptyMachOObject, emptyMachOObject] }

end Emitter
namespace ObjCopy

/-! ### Lemmas about the re-indexing phase of removeSections -/

theorem allSections_nil : allSections [] = [] := rfl

theorem allSections_cons (lc : LoadCommand) (lcs : List LoadCommand) :
    allSections (lc :: lcs) = lc.Sections ++ allSections lcs := by
  simp [allSections]

theorem renumberSecs_spec (p : Section → Bool) (secs : List Section) :
    ∀ (next : Nat) (m : List (Nat × Nat)),
      ((renumberSecs p next m secs).2.2.map Section.Index =
        List.range' next (renumberSecs p next m secs).2.2.length) ∧
      (renumberSecs p next m secs).1 =
        next + (renumberSecs p next m secs).2.2.length := by
  induction secs with
  | nil => intro next m; simp [renumberSecs]
  | cons s rest ih =>
    intro next m
    cases h : p s with
    | true => simpa [renumberSecs, h] using ih next m
    | false =>
      have ih2 := ih (next + 1) ((s.Index, next) :: m)
      simp only [renumberSecs, h, Bool.false_eq_true, if_false, List.map_cons,
        List.length_cons, List.range'_succ]
      exact ⟨by rw [ih2.1], by omega⟩

theorem renumberSecs_filter (p : Section → Bool) (secs : List Section) :
    ∀ (next : Nat) (m : List (Nat × Nat)),
      (renumberSecs p next m secs).2.2.map eraseIndex =
        (secs.filter (fun s => !p s)).map eraseIndex := by
  induction secs with
  | nil => intro next m; simp [renumberSecs]
  | cons s rest ih =>
    intro next m
    cases h : p s with
    | true => simpa [renumberSecs, h] using ih next m
    | false =>
      have he : eraseIndex { s with Index := next } = eraseIndex s := by
        simp [eraseIndex]
      simp only [renumberSecs, h, Bool.false_eq_true, if_false, List.map_cons,
        List.filter_cons, Bool.not_false, if_true, he,
        ih (next + 1) ((s.Index, next) :: m)]

theorem renumberSecs_map_mem (p : Section → Bool) (secs : List Section) :
    ∀ (next : Nat) (m : List (Nat × Nat)) (q : Nat × Nat),
      q ∈ (renumberSecs p next m secs).2.1 →
        q ∈ m ∨ ∃ sec, sec ∈ secs ∧ p sec = false ∧ sec.Index = q.1 ∧
          { sec with Index := q.2 } ∈ (renumberSecs p next m secs).2.2 := by
  induction secs with
  | nil => intro next m q hq; exact Or.inl (by simpa [renumberSecs] using hq)
  | cons s rest ih =>
    intro next m q hq
    cases h : p s with
    | true =>
      rcases ih next m q (by simpa [renumberSecs, h] using hq) with hm | ⟨sec, hs, hp, hi, hmem⟩
      · exact Or.inl hm
      · exact Or.inr ⟨sec, List.mem_cons_of_mem _ hs, hp, hi, by
          simpa [renumberSecs, h] using hmem⟩
    | false =>
      have hq' : q ∈ (renumberSecs p (next + 1) ((s.Index, next) :: m) rest).2.1 := by
        simpa [renumberSecs, h] using hq
      rcases ih (next + 1) ((s.Index, next) :: m) q hq' with hm | ⟨sec, hs, hp, hi, hmem⟩
      · rcases List.mem_cons.1 hm with hqe | hm'
        · refine Or.inr ⟨s, List.mem_cons_self _ _, h, ?_, ?_⟩
          · rw [hqe]
          · have h2 : ({ s with Index := q.2 } : Section) = { s with Index := next } := by
              rw [hqe]
            rw [h2]
            simp [renumberSecs, h]
        · exact Or.inl hm'
      · refine Or.inr ⟨sec, List.mem_cons_of_mem _ hs, hp, hi, ?_⟩
        simp only [renumberSecs, h, Bool.false_eq_true, if_false]
        exact List.mem_cons_of_mem _ hmem

theorem renumberLCs_indexes (p : Section → Bool) (lcs : List LoadCommand) :
    ∀ (next : Nat) (m : List (Nat × Nat)),
      ((allSections (renumberLCs p next m lcs).2.2).map Section.Index =
        List.range' next (allSections (renumberLCs p next m lcs).2.2).length) ∧
      (renumberLCs p next m lcs).1 =
        next + (allSections (renumberLCs p next m lcs).2.2).length := by
  induction lcs with
  | nil => intro next m; simp [renumberLCs, allSections]
  | cons lc rest ih =>
    intro next m
    have hs := renumberSecs_spec p lc.Sections next m
    have ih2 := ih (renumberSecs p next m lc.Sections).1
      (renumberSecs p next m lc.Sections).2.1
    simp only [renumberLCs, allSections_cons, List.map_append, List.length_append]
    constructor
    · rw [hs.1, ih2.1, hs.2, List.range'_append_1]
      congr 1
      omega
    · rw [ih2.2, hs.2]
      omega

theorem renumberLCs_filter (p : Section → Bool) (lcs : List LoadCommand) :
    ∀ (next : Nat) (m : List (Nat × Nat)),
      (renumberLCs p next m lcs).2.2.map (fun lc => lc.Sections.map eraseIndex) =
        lcs.map (fun lc => (lc.Sections.filter fun s => !p s).map eraseIndex) := by
  induction lcs with
  | nil => intro next m; simp [renumberLCs]
  | cons lc rest ih =>
    intro next m
    simp only [renumberLCs, List.map_cons]
    exact by
      rw [renumberSecs_filter p lc.Sections next m,
        ih (renumberSecs p next m lc.Sections).1
          (renumberSecs p next m lc.Sections).2.1]

theorem renumberLCs_map_mem (p : Section → Bool) (lcs : List LoadCommand) :
    ∀ (next : Nat) (m : List (Nat × Nat)) (q : Nat × Nat),
      q ∈ (renumberLCs p next m lcs).2.1 →
        q ∈ m ∨ ∃ sec, sec ∈ allSections lcs ∧ p sec = false ∧ sec.Index = q.1 ∧
          { sec with Index := q.2 } ∈ allSections (renumberLCs p next m lcs).2.2 := by
  induction lcs with
  | nil =>
    intro next m q hq
    exact Or.inl (by simpa [renumberLCs] using hq)
  | cons lc rest ih =>
    intro next m q hq
    have hq' : q ∈ (renumberLCs p (renumberSecs p next m lc.Sections).1
        (renumberSecs p next m lc.Sections).2.1 rest).2.1 := by
      simpa [renumberLCs] using hq
    rcases ih _ _ q hq' with hm | ⟨sec, hs, hp, hi, hmem⟩
    · rcases renumberSecs_map_mem p lc.Sections next m q hm with hm0 | ⟨sec, hs, hp, hi, hmem⟩
      · exact Or.inl hm0
      · refine Or.inr ⟨sec, ?_, hp, hi, ?_⟩
        · rw [allSections_cons]; exact List.mem_append_left _ hs
        · simp only [renumberLCs, allSections_cons]
          exact List.mem_append_left _ hmem
    · refine Or.inr ⟨sec, ?_, hp, hi, ?_⟩
      · rw [allSections_cons]; exact List.mem_append_right _ hs
      · simp only [renumberLCs, allSections_cons]
        exact List.mem_append_right _ hmem

theorem mem_of_lookup (m : List (Nat × Nat)) (i j : Nat)
    (h : m.lookup i = some j) : (i, j) ∈ m := by
  rcases List.lookup_eq_some_iff.1 h with ⟨l1, l2, rfl, -⟩
  simp

theorem offendingSymbol_eq_some (syms : List SymbolEntry) (m : List (Nat × Nat))
    (r : RelocationInfo) (sym : SymbolEntry)
    (h : offendingSymbol syms m r = some sym) :
    ∃ j, r.symbol = some j ∧ syms[j]? = some sym ∧ isDead m sym = true := by
  rcases hr : r.symbol with - | j
  · simp [offendingSymbol, hr] at h
  · rcases hg : syms[j]? with - | s
    · simp [offendingSymbol, hr, hg] at h
    · cases hd : isDead m s with
      | false => simp [offendingSymbol, hr, hg, hd] at h
      | true =>
        have h2 : s = sym := by simpa [offendingSymbol, hr, hg, hd] using h
        subst h2
        exact ⟨j, rfl, hg, hd⟩

theorem firstDanglingReloc_eq_some (syms : List SymbolEntry)
    (m : List (Nat × Nat)) (l : List (Section × RelocationInfo))
    (sym : SymbolEntry) (sec : Section)
    (h : firstDanglingReloc syms m l = some (sym, sec)) :
    ∃ r, (sec, r) ∈ l ∧ offendingSymbol syms m r = some sym := by
  induction l with
  | nil => exact absurd h (by simp [firstDanglingReloc])
  | cons pr rest ih =>
    rcases pr with ⟨sec0, r0⟩
    rcases ho : offendingSymbol syms m r0 with - | s0
    · have h' : firstDanglingReloc syms m rest = some (sym, sec) := by
        simpa [firstDanglingReloc, ho] using h
      rcases ih h' with ⟨r, hr, hoff⟩
      exact ⟨r, List.mem_cons_of_mem _ hr, hoff⟩
    · have h' : s0 = sym ∧ sec0 = sec := by
        simpa [firstDanglingReloc, ho, Prod.ext_iff] using h
      rcases h' with ⟨h1, h2⟩
      subst h1; subst h2
      exact ⟨r0, List.mem_cons_self _ _, ho⟩

theorem firstDanglingReloc_isSome (syms : List SymbolEntry)
    (m : List (Nat × Nat)) (l : List (Section × RelocationInfo))
    (h : (l.any fun pr => (offendingSymbol syms m pr.2).isSome) = true) :
    (firstDanglingReloc syms m l).isSome = true := by
  induction l with
  | nil => simp at h
  | cons pr rest ih =>
    rcases pr with ⟨sec0, r0⟩
    rcases ho : offendingSymbol syms m r0 with - | s0
    · have h' : (rest.any fun pr => (offendingSymbol syms m pr.2).isSome) = true := by
        simpa [ho] using h
      simpa [firstDanglingReloc, ho] using ih h'
    · simp [firstDanglingReloc, ho]

theorem isDead_eq_true (m : List (Nat × Nat)) (s : SymbolEntry)
    (h : isDead m s = true) :
    ∃ di, s.n_sect = some di ∧ m.lookup di = none := by
  unfold isDead at h
  rcases hn : s.n_sect with - | di
  · rw [hn] at h; exact absurd h (by simp)
  · rw [hn] at h
    exact ⟨di, rfl, by simpa using h⟩

theorem removeSections_eq_of_none (toRemove : Section → Bool) (o : Object)
    (hfd : firstDanglingReloc o.SymTable.Symbols
      (renumberLCs toRemove 1 [] o.LoadCommands).2.1
      (relocTriples (renumberLCs toRemove 1 [] o.LoadCommands).2.2) = none) :
    removeSections toRemove o =
      ({ o with
          LoadCommands := (renumberLCs toRemove 1 [] o.LoadCommands).2.2,
          SymTable :=
            ⟨(o.SymTable.Symbols.filter
                (fun s => !isDead (renumberLCs toRemove 1 [] o.LoadCommands).2.1 s)).map
              (rewriteSymbol (renumberLCs toRemove 1 [] o.LoadCommands).2.1)⟩ },
        none) := by
  simp [removeSections, hfd]

theorem removeSections_eq_of_some (toRemove : Section → Bool) (o : Object)
    (sym : SymbolEntry) (sec : Section)
    (hfd : firstDanglingReloc o.SymTable.Symbols
      (renumberLCs toRemove 1 [] o.LoadCommands).2.1
      (relocTriples (renumberLCs toRemove 1 [] o.LoadCommands).2.2) =
        some (sym, sec)) :
    removeSections toRemove o =
      ({ o with LoadCommands := (renumberLCs toRemove 1 [] o.LoadCommands).2.2 },
        some (removeSectionsErrMsg sym.Name (sym.n_sect.getD 0)
          sec.CanonicalName)) := by
  simp [removeSections, hfd]

/-- C1: for every object and removal predicate, if any relocation in a
surviving section references a symbol that is dead because its defining
section was removed, `removeSections` does not succeed: it reports the
invalid-argument error whose message names that symbol, the
defining-section index of the symbol, and the canonical name of the referencing section. -/
theorem removeSections_dangling_relocation_fails
    (o : Object) (toRemove : Section → Bool)
    (h : ((relocTriples (renumberLCs toRemove 1 [] o.LoadCommands).2.2).any
        fun pr => (offendingSymbol o.SymTable.Symbols
          (renumberLCs toRemove 1 [] o.LoadCommands).2.1 pr.2).isSome) = true) :
    (removeSections toRemove o).2 ≠ none ∧
    ∃ sym sec defIdx,
      sym.n_sect = some defIdx ∧
      (removeSections toRemove o).2 =
        some (removeSectionsErrMsg sym.Name defIdx sec.CanonicalName) ∧
      ∃ r j,
        (sec, r) ∈ relocTriples (renumberLCs toRemove 1 [] o.LoadCommands).2.2 ∧
        r.symbol = some j ∧ o.SymTable.Symbols[j]? = some sym ∧
        isDead (renumberLCs toRemove 1 [] o.LoadCommands).2.1 sym = true := by
  have hsome := firstDanglingReloc_isSome o.SymTable.Symbols
    (renumberLCs toRemove 1 [] o.LoadCommands).2.1
    (relocTriples (renumberLCs toRemove 1 [] o.LoadCommands).2.2) h
  rcases hopt : firstDanglingReloc o.SymTable.Symbols
      (renumberLCs toRemove 1 [] o.LoadCommands).2.1
      (relocTriples (renumberLCs toRemove 1 [] o.LoadCommands).2.2) with - | ⟨sym, sec⟩
  · rw [hopt] at hsome; simp at hsome
  · have heq := removeSections_eq_of_some toRemove o sym sec hopt
    rcases firstDanglingReloc_eq_some _ _ _ _ _ hopt with ⟨r, hmem, hoff⟩
    rcases offendingSymbol_eq_some _ _ _ _ hoff with ⟨j, hrj, hje, hdead⟩
    rcases isDead_eq_true _ _ hdead with ⟨di, hdi, -⟩
    constructor
    · rw [heq]; simp
    · refine ⟨sym, sec, di, hdi, ?_, r, j, hmem, hrj, hje, hdead⟩
      rw [heq]
      simp [hdi]

/-- C2: on success, the surviving sections, flattened in load-command order
with relative order preserved inside each command, carry the contiguous
1-based indices 1, 2, ..., k; the surviving section lists are exactly the
per-command filters of the originals; every symbol whose defining section was
removed is deleted from the symbol table and the section back-reference of
every surviving symbol is rewritten; and the rewritten reference of each
surviving symbol
is the new index now carried by the very section it referenced before. -/
theorem removeSections_success_invariants
    (o : Object) (toRemove : Section → Bool) (o' : Object)
    (h : removeSections toRemove o = (o', none)) :
    ((allSections o'.LoadCommands).map Section.Index =
      List.range' 1 (allSections o'.LoadCommands).length) ∧
    (o'.LoadCommands.map (fun lc => lc.Sections.map eraseIndex) =
      o.LoadCommands.map
        (fun lc => (lc.Sections.filter fun s => !toRemove s).map eraseIndex)) ∧
    (o'.SymTable.Symbols =
      (o.SymTable.Symbols.filter
        (fun s => !isDead (renumberLCs toRemove 1 [] o.LoadCommands).2.1 s)).map
        (rewriteSymbol (renumberLCs toRemove 1 [] o.LoadCommands).2.1)) ∧
    (∀ s ∈ o.SymTable.Symbols,
      isDead (renumberLCs toRemove 1 [] o.LoadCommands).2.1 s = false →
      ∀ i, s.n_sect = some i →
        ∃ j sec,
          ((renumberLCs toRemove 1 [] o.LoadCommands).2.1.lookup i = some j) ∧
          sec ∈ allSections o.LoadCommands ∧ toRemove sec = false ∧
          sec.Index = i ∧
          { sec with Index := j } ∈ allSections o'.LoadCommands) := by
  rcases hopt : firstDanglingReloc o.SymTable.Symbols
      (renumberLCs toRemove 1 [] o.LoadCommands).2.1
      (relocTriples (renumberLCs toRemove 1 [] o.LoadCommands).2.2) with - | ⟨sym, sec⟩
  · have heq := removeSections_eq_of_none toRemove o hopt
    rw [h] at heq
    have ho' : o' = { o with
        LoadCommands := (renumberLCs toRemove 1 [] o.LoadCommands).2.2,
        SymTable :=
          ⟨(o.SymTable.Symbols.filter
              (fun s => !isDead (renumberLCs toRemove 1 [] o.LoadCommands).2.1 s)).map
            (rewriteSymbol (renumberLCs toRemove 1 [] o.LoadCommands).2.1)⟩ } :=
      congrArg Prod.fst heq
    refine ⟨?_, ?_, ?_, ?_⟩
    · rw [ho']
      exact (renumberLCs_indexes toRemove o.LoadCommands 1 []).1
    · rw [ho']
      exact renumberLCs_filter toRemove o.LoadCommands 1 []
    · rw [ho']
    · intro s hs hlive i hi
      have hlook : ((renumberLCs toRemove 1 [] o.LoadCommands).2.1.lookup i).isSome = true := by
        rcases hl : (renumberLCs toRemove 1 [] o.LoadCommands).2.1.lookup i with - | j
        · have hdead : isDead (renumberLCs toRemove 1 [] o.LoadCommands).2.1 s = true := by
            simp [isDead, hi, hl]
          simp [hdead] at hlive
        · simp
      rcases Option.isSome_iff_exists.1 hlook with ⟨j, hj⟩
      have hmemm := mem_of_lookup _ _ _ hj
      rcases renumberLCs_map_mem toRemove o.LoadCommands 1 [] (i, j) hmemm with hm0 | ⟨sec, hsec, hpf, hidx, hmem2⟩
      · simp at hm0
      · exact ⟨j, sec, hj, hsec, hpf, hidx, by rw [ho']; exact hmem2⟩
  · have heq := removeSections_eq_of_some toRemove o sym sec hopt
    rw [h] at heq
    have : (none : Option String) = some (removeSectionsErrMsg sym.Name
        (sym.n_sect.getD 0) sec.CanonicalName) := congrArg Prod.snd heq
    exact absurd this (by simp)

/-- C10: when `removeSections` fails with the dangling-relocation error, the
symbol table is left untouched, but the section removal has already happened:
the load commands hold exactly the surviving (filtered) sections, already
re-indexed contiguously from 1; nothing is restored on failure. -/
theorem removeSections_error_partial_mutation
    (o : Object) (toRemove : Section → Bool) (o' : Object) (e : String)
    (h : removeSections toRemove o = (o', some e)) :
    o'.SymTable = o.SymTable ∧
    o'.LoadCommands = (renumberLCs toRemove 1 [] o.LoadCommands).2.2 ∧
    ((allSections o'.LoadCommands).map Section.Index =
      List.range' 1 (allSections o'.LoadCommands).length) ∧
    (o'.LoadCommands.map (fun lc => lc.Sections.map eraseIndex) =
      o.LoadCommands.map
        (fun lc => (lc.Sections.filter fun s => !toRemove s).map eraseIndex)) := by
  rcases hopt : firstDanglingReloc o.SymTable.Symbols
      (renumberLCs toRemove 1 [] o.LoadCommands).2.1
      (relocTriples (renumberLCs toRemove 1 [] o.LoadCommands).2.2) with - | ⟨sym, sec⟩
  · have heq := removeSections_eq_of_none toRemove o hopt
    rw [h] at heq
    have : (some e : Option String) = none := congrArg Prod.snd heq
    exact absurd this (by simp)
  · have heq := removeSections_eq_of_some toRemove o sym sec hopt
    rw [h] at heq
    have ho' : o' = { o with
        LoadCommands := (renumberLCs toRemove 1 [] o.LoadCommands).2.2 } :=
      congrArg Prod.fst heq
    refine ⟨by rw [ho'], by rw [ho'], ?_, ?_⟩
    · rw [ho']
      exact (renumberLCs_indexes toRemove o.LoadCommands 1 []).1
    · rw [ho']
      exact renumberLCs_filter toRemove o.LoadCommands 1 []

end ObjCopy

namespace ObjCopy

/-! ### Witnesses for the removeSections theorems -/

/-- Witness instantiating the C1 theorem on `danglingObject`. -/
theorem removeSections_dangling_relocation_fails_witness :
    (removeSections removePred2 danglingObject).2 ≠ none :=
  (removeSections_dangling_relocation_fails danglingObject removePred2
    (by decide)).1

/-- Witness instantiating the C2 theorem on `cleanObject`. -/
theorem removeSections_success_invariants_witness :
    (allSections ((removeSections removePred2 cleanObject).1).LoadCommands).map
        Section.Index =
      List.range' 1
        (allSections ((removeSections removePred2 cleanObject).1).LoadCommands).length :=
  (removeSections_success_invariants cleanObject removePred2
    (removeSections removePred2 cleanObject).1 rfl).1

/-- Witness instantiating the C10 theorem on `dangling2Object`. -/
theorem removeSections_error_partial_mutation_witness :
    ((removeSections removePred2 dangling2Object).1).SymTable =
      dangling2Object.SymTable :=
  (removeSections_error_partial_mutation dangling2Object removePred2
    (removeSections removePred2 dangling2Object).1
    (removeSectionsErrMsg "C" 2 "__DATA,__data") rfl).1

/-! ### Lemmas about the cached special-command indices -/

theorem cachedIndex_applyCmdIndex (k : SpecialKind) (i c : Nat) (o : Object) :
    cachedIndex k (applyCmdIndex i c o) =
      if matchesKind k c then some i else cachedIndex k o := by
  cases k <;>
    simp only [applyCmdIndex, matchesKind, cachedIndex, LC_SYMTAB, LC_DYSYMTAB,
      LC_DYLD_INFO, LC_DYLD_INFO_ONLY, LC_DATA_IN_CODE, LC_FUNCTION_STARTS] <;>
    split_ifs <;> simp_all

theorem loadCommands_applyCmdIndex (i c : Nat) (o : Object) :
    (applyCmdIndex i c o).LoadCommands = o.LoadCommands := by
  simp only [applyCmdIndex]
  split_ifs <;> rfl

theorem loadCommands_updateIndexesAux (l : List LoadCommand) :
    ∀ (i : Nat) (o : Object),
      (updateIndexesAux i l o).LoadCommands = o.LoadCommands := by
  induction l with
  | nil => intro i o; rfl
  | cons lc rest ih =>
    intro i o
    simp only [updateIndexesAux, ih, loadCommands_applyCmdIndex]

theorem cachedIndex_updateIndexesAux (k : SpecialKind) (l : List LoadCommand) :
    ∀ (i : Nat) (o : Object),
      cachedIndex k (updateIndexesAux i l o) =
        match lastMatchPos k l with
        | some j => some (i + j)
        | none => cachedIndex k o := by
  induction l with
  | nil => intro i o; rfl
  | cons lc rest ih =>
    intro i o
    rw [updateIndexesAux, ih]
    cases hr : lastMatchPos k rest with
    | some j =>
      have harith : i + 1 + j = i + (j + 1) := by omega
      simp [lastMatchPos, hr, harith]
    | none =>
      rw [cachedIndex_applyCmdIndex]
      cases hm : matchesKind k lc.cmd with
      | true => simp [lastMatchPos, hr, hm]
      | false => simp [lastMatchPos, hr, hm]

theorem lastMatchPos_eq_some (k : SpecialKind) (l : List LoadCommand) :
    ∀ j, lastMatchPos k l = some j →
      ∃ lc, l[j]? = some lc ∧ matchesKind k lc.cmd = true := by
  induction l with
  | nil => intro j h; exact absurd h (by simp [lastMatchPos])
  | cons lc rest ih =>
    intro j h
    cases hr : lastMatchPos k rest with
    | some j0 =>
      have hj : j0 + 1 = j := by simpa [lastMatchPos, hr] using h
      subst hj
      rcases ih j0 hr with ⟨lc0, hget, hm⟩
      exact ⟨lc0, by simpa using hget, hm⟩
    | none =>
      cases hm : matchesKind k lc.cmd with
      | true =>
        have hj : (0 : Nat) = j := by simpa [lastMatchPos, hr, hm] using h
        subst hj
        exact ⟨lc, by simp, hm⟩
      | false => exact absurd h (by simp [lastMatchPos, hr, hm])

theorem lastMatchPos_isSome (k : SpecialKind) (l : List LoadCommand)
    (h : (l.any fun lc => matchesKind k lc.cmd) = true) :
    (lastMatchPos k l).isSome = true := by
  induction l with
  | nil => simp at h
  | cons lc rest ih =>
    cases hr : lastMatchPos k rest with
    | some j => simp [lastMatchPos, hr]
    | none =>
      cases hm : matchesKind k lc.cmd with
      | true => simp [lastMatchPos, hr, hm]
      | false =>
        have h' := ih (by simpa [hm] using h)
        rw [hr] at h'
        simp at h'

/-- C9 (amended): after `removeLoadCommands` every special kind that is still
present is cached at the position of one (the last) such surviving command;
`addLoadCommand` and `addSegment` do not recompute anything and leave all
five cached indices unchanged (appending preserves existing positions, but a
newly appended special command is not recorded, and for an absent kind the stale
index is never cleared). -/
theorem cachedIndexes_after_mutations
    (o : Object) (toRemove : LoadCommand → Bool) (k : SpecialKind)
    (h : ((o.LoadCommands.filter fun lc => !toRemove lc).any
      fun lc => matchesKind k lc.cmd) = true) :
    (∃ i lc, cachedIndex k (removeLoadCommands toRemove o) = some i ∧
      (removeLoadCommands toRemove o).LoadCommands[i]? = some lc ∧
      matchesKind k lc.cmd = true) ∧
    (∀ lc0, cachedIndex k (addLoadCommand lc0 o) = cachedIndex k o) ∧
    (∀ nm, cachedIndex k (addSegment nm o) = cachedIndex k o) := by
  refine ⟨?_, ?_, ?_⟩
  · have hsome := lastMatchPos_isSome k
      (o.LoadCommands.filter fun lc => !toRemove lc) h
    rcases hlm : lastMatchPos k (o.LoadCommands.filter fun lc => !toRemove lc)
      with - | j
    · rw [hlm] at hsome; simp at hsome
    · rcases lastMatchPos_eq_some k _ j hlm with ⟨lc, hget, hm⟩
      refine ⟨j, lc, ?_, ?_, hm⟩
      · rw [removeLoadCommands, updateLoadCommandIndexes,
          cachedIndex_updateIndexesAux]
        simp [hlm]
      · rw [removeLoadCommands, updateLoadCommandIndexes,
          loadCommands_updateIndexesAux]
        exact hget
  · intro lc0; cases k <;> rfl
  · intro nm; cases k <;> rfl

/-- Witness instantiating the amended C9 theorem on `twoCmdObject` with a
predicate removing nothing. -/
theorem cachedIndexes_after_mutations_witness :
    ∃ i lc,
      cachedIndex SpecialKind.symtab
        (removeLoadCommands (fun _ => false) twoCmdObject) = some i ∧
      (removeLoadCommands (fun _ => false) twoCmdObject).LoadCommands[i]? =
        some lc ∧
      matchesKind SpecialKind.symtab lc.cmd = true :=
  (cachedIndexes_after_mutations twoCmdObject (fun _ => false)
    SpecialKind.symtab (by decide)).1

/-- C9 counterexample: appending a symtab command with `addLoadCommand` to an
object with no cached symtab index leaves the cached index `none` although a
symtab command is now present, violating the claimed consistency. -/
theorem cachedIndexes_after_mutations_counterexample :
    ((addLoadCommand symtabLoadCommand emptyObject).LoadCommands.any
      fun lc => matchesKind SpecialKind.symtab lc.cmd) = true ∧
    cachedIndex SpecialKind.symtab
      (addLoadCommand symtabLoadCommand emptyObject) = none := by
  exact ⟨by decide, rfl⟩

end ObjCopy

namespace Emitter

/-! ### Helper lemmas on byte-list lengths -/

theorem flatten_length_const (l : List (List Nat)) (c : Nat)
    (h : ∀ x ∈ l, x.length = c) : l.flatten.length = c * l.length := by
  induction l with
  | nil => simp
  | cons x rest ih =>
    simp only [List.flatten_cons, List.length_append, List.length_cons,
      h x (List.mem_cons_self _ _),
      ih fun y hy => h y (List.mem_cons_of_mem _ hy)]
    ring

/-! ### C3: per-command emission totals and zero-fill -/

/-- C3 (amended): for a load command whose header, section-struct and
build-tool images have their struct sizes, and whose bytes before the final
zero-fill do not exceed the declared (32-bit) `cmdsize`, the total
emission is exactly `cmdsize` bytes: header struct + type-specific trailing
data + payload bytes + explicit pad, with the shortfall zero-filled.  (When
the pre-fill bytes exceed `cmdsize`, the `size_t` subtraction wraps instead,
see the counterexample.) -/
theorem emitLoadCommand_total_cmdsize (lc : LoadCommand)
    (hc : lc.cmdsize < 2 ^ 32)
    (hh : lc.hdr.length = cmdHdrSize lc.cmd)
    (hs : ∀ s ∈ lc.sections, s.structImage.length = sectImageSize lc.cmd)
    (ht : ∀ t ∈ lc.tools, t.length = 8)
    (hfit : (emitLoadCommandPre lc).length ≤ lc.cmdsize) :
    (emitLoadCommand lc).length = lc.cmdsize ∧
    emitLoadCommand lc =
      emitLoadCommandPre lc ++
        List.replicate (lc.cmdsize - (emitLoadCommandPre lc).length) 0 ∧
    (emitLoadCommandPre lc).length =
      cmdHdrSize lc.cmd + lcTrailingSize lc + lc.payloadBytes.length +
        lc.zeroPadBytes := by
  have hw : usub64 lc.cmdsize (emitLoadCommandPre lc).length =
      lc.cmdsize - (emitLoadCommandPre lc).length := by
    unfold usub64
    omega
  have htr : (lcTrailing lc).length = lcTrailingSize lc := by
    cases hcmd : lc.cmd with
    | segment fo fs =>
      simp only [lcTrailing, lcTrailingSize, hcmd]
      rw [flatten_length_const _ 68, List.length_map]
      intro x hx
      rcases List.mem_map.1 hx with ⟨s, hsm, rfl⟩
      have := hs s hsm
      rw [hcmd] at this
      simpa [sectImageSize] using this
    | segment64 fo fs =>
      simp only [lcTrailing, lcTrailingSize, hcmd]
      rw [flatten_length_const _ 80, List.length_map]
      intro x hx
      rcases List.mem_map.1 hx with ⟨s, hsm, rfl⟩
      have := hs s hsm
      rw [hcmd] at this
      simpa [sectImageSize] using this
    | symtab so st => simp [lcTrailing, lcTrailingSize, hcmd]
    | dyldInfoOnly a b c d e => simp [lcTrailing, lcTrailingSize, hcmd]
    | dylib => simp [lcTrailing, lcTrailingSize, hcmd]
    | dylinker => simp [lcTrailing, lcTrailingSize, hcmd]
    | rpath => simp [lcTrailing, lcTrailingSize, hcmd]
    | buildVersion =>
      simp only [lcTrailing, lcTrailingSize, hcmd]
      rw [flatten_length_const _ 8 ht]
    | generic c => simp [lcTrailing, lcTrailingSize, hcmd]
  refine ⟨?_, ?_, ?_⟩
  · rw [emitLoadCommand, List.length_append, List.length_replicate, hw]
    omega
  · rw [emitLoadCommand, hw]
  · simp only [emitLoadCommandPre, List.length_append, List.length_replicate,
      hh, htr]

/-- C3 counterexample: on `badGenericCommand` (declared cmdsize 0, 8-byte
header) the emission total is `2 ^ 64` bytes, not the declared cmdsize: the
unsigned `cmdsize - BytesWritten` wraps around. -/
theorem emitLoadCommand_total_cmdsize_counterexample :
    (emitLoadCommand badGenericCommand).length ≠ badGenericCommand.cmdsize := by
  have hpre : (emitLoadCommandPre badGenericCommand).length = 8 := by decide
  rw [emitLoadCommand, List.length_append, List.length_replicate, hpre]
  decide

/-- Witness instantiating the amended C3 theorem on `goodDylinkerCommand`. -/
theorem emitLoadCommand_total_cmdsize_witness :
    (emitLoadCommand goodDylinkerCommand).length =
      goodDylinkerCommand.cmdsize :=
  (emitLoadCommand_total_cmdsize goodDylinkerCommand (by decide) (by decide)
    (by intro s hsm; cases hsm) (by intro t htm; cases htm) (by decide)).1

/-! ### C7: fat writer slice/arch mismatch -/

/-- C7: when a fat file declares more slices than architecture-table
entries, `universalWriteMachO` fails with the invalid-argument message, and
the bytes written at that point are exactly the fat header (8 bytes) and the
arch table (20 or 32 bytes per declared architecture) — no slice body. -/
theorem universalWriteMachO_slice_arch_mismatch
    (emitSlice : Object → Nat → List Nat × Option String) (ff : FatFile)
    (h : ff.fatArchs.length < ff.slices.length) :
    universalWriteMachO emitSlice (.fat ff) =
      (fatHeaderBytes ff ++ fatArchsBytes ff, some fatSlicesErr) ∧
    (fatHeaderBytes ff).length = 8 ∧
    (fatArchsBytes ff).length =
      (if ff.magic == FAT_MAGIC_64 then 32 else 20) * ff.fatArchs.length := by
  refine ⟨?_, ?_, ?_⟩
  · simp [universalWriteMachO, h]
  · simp [fatHeaderBytes, be32]
  · unfold fatArchsBytes
    cases hm : ff.magic == FAT_MAGIC_64 with
    | true =>
      simp only [hm, if_true]
      rw [flatten_length_const _ 32, List.length_map]
      intro x hx
      rcases List.mem_map.1 hx with ⟨a, -, rfl⟩
      simp [fatArchBytes64, be32, be64]
    | false =>
      simp only [hm, Bool.false_eq_true, if_false]
      rw [flatten_length_const _ 20, List.length_map]
      intro x hx
      rcases List.mem_map.1 hx with ⟨a, -, rfl⟩
      simp [fatArchBytes32, be32]

/-- Witness instantiating the C7 theorem on `fatMismatchFile` (2 declared
architectures, 3 slices). -/
theorem universalWriteMachO_slice_arch_mismatch_witness :
    universalWriteMachO (fun _ _ => ([], none)) (.fat fatMismatchFile) =
      (fatHeaderBytes fatMismatchFile ++ fatArchsBytes fatMismatchFile,
        some fatSlicesErr) :=
  (universalWriteMachO_slice_arch_mismatch (fun _ _ => ([], none))
    fatMismatchFile (by decide)).1

/-! ### C4: link-edit operations execute in ascending offset order -/

theorem insertLEOp_perm (x : Nat × LEWriter) (l : List (Nat × LEWriter)) :
    (insertLEOp x l).Perm (x :: l) := by
  induction l with
  | nil => exact List.Perm.refl _
  | cons y ys ih =>
    by_cases hxy : x.1 ≤ y.1
    · simp only [insertLEOp, if_pos hxy]
      exact List.Perm.refl _
    · simp only [insertLEOp, if_neg hxy]
      exact (ih.cons y).trans (List.Perm.swap x y ys)

theorem insertLEOp_pairwise (x : Nat × LEWriter) (l : List (Nat × LEWriter))
    (h : l.Pairwise fun a b => a.1 ≤ b.1) :
    (insertLEOp x l).Pairwise fun a b => a.1 ≤ b.1 := by
  induction l with
  | nil => simp [insertLEOp]
  | cons y ys ih =>
    rcases List.pairwise_cons.1 h with ⟨hy, hys⟩
    by_cases hxy : x.1 ≤ y.1
    · rw [insertLEOp, if_pos hxy]
      refine List.pairwise_cons.2 ⟨?_, h⟩
      intro z hz
      rcases List.mem_cons.1 hz with rfl | hz2
      · exact hxy
      · exact Nat.le_trans hxy (hy z hz2)
    · rw [insertLEOp, if_neg hxy]
      refine List.pairwise_cons.2 ⟨?_, ih hys⟩
      intro z hz
      rcases List.mem_cons.1 ((insertLEOp_perm x ys).mem_iff.1 hz) with rfl | hz2
      · exact Nat.le_of_not_le hxy
      · exact hy z hz2

theorem sortLEOps_perm (l : List (Nat × LEWriter)) : (sortLEOps l).Perm l := by
  induction l with
  | nil => exact List.Perm.refl _
  | cons x xs ih => exact (insertLEOp_perm x (sortLEOps xs)).trans (ih.cons x)

theorem sortLEOps_pairwise (l : List (Nat × LEWriter)) :
    (sortLEOps l).Pairwise fun a b => a.1 ≤ b.1 := by
  induction l with
  | nil => simp [sortLEOps]
  | cons x xs ih => exact insertLEOp_pairwise x _ ih

/-- C4: the write queue `writeLinkEditData` executes is exactly the queue
collected from the symtab and dyld-info-only commands (a permutation of it),
reordered so that the declared target offsets are ascending, and each
stream of each operation is emitted after zero-padding the sink to its declared
offset, regardless of the order in which the commands declared them. -/
theorem writeLinkEditData_sorted_ascending (o : Object) (pos : Nat) :
    (sortLEOps (collectLEOps o.loadCommands)).Pairwise
      (fun a b => a.1 ≤ b.1) ∧
    (sortLEOps (collectLEOps o.loadCommands)).Perm
      (collectLEOps o.loadCommands) ∧
    writeLinkEditData o pos =
      execLEOps o.linkEdit pos (sortLEOps (collectLEOps o.loadCommands)) ∧
    ∀ (le : LinkEditData) (p : Nat) (op : Nat × LEWriter)
        (rest : List (Nat × LEWriter)),
      execLEOps le p (op :: rest) =
        ZeroToOffset p op.1 ++ runLEWriter le op.2 ++
          execLEOps le
            (p + (ZeroToOffset p op.1).length + (runLEWriter le op.2).length)
            rest :=
  ⟨sortLEOps_pairwise _, sortLEOps_perm _, rfl, fun _ _ _ _ => rfl⟩


/-! ### C6: section offsets are reached by forward zero-padding only -/

/-- C6: for each section, the sink is first zero-padded up to the declared
file offset — on success the bytes emitted for the section group begin with
exactly that zero padding; the write fails with the invalid-argument message
when the stream position is already past a nonzero declared offset; and
padding to an offset already reached emits no bytes at all. -/
theorem writeSections_offset_discipline (hostLE : Bool)
    (dwarf : String → Except String (List Nat)) (pos : Nat) (sec : Section)
    (rest : List Section) :
    (sec.offset < pos → sec.offset ≠ 0 →
      writeSections hostLE dwarf pos (sec :: rest) = .error sectionOffsetErr) ∧
    (pos ≤ sec.offset → ∀ bytes pend,
      writeSections hostLE dwarf pos (sec :: rest) = .ok (bytes, pend) →
      List.take (sec.offset - pos) bytes =
        List.replicate (sec.offset - pos) 0) ∧
    (∀ q, q ≤ pos → ZeroToOffset pos q = []) := by
  refine ⟨?_, ?_, ?_⟩
  · intro hpast hnz
    rw [writeSections]
    simp only [ZeroToOffset, List.length_replicate]
    rw [if_pos ⟨by omega, hnz⟩]
  · intro hle bytes pend h
    rw [writeSections] at h
    simp only [ZeroToOffset, List.length_replicate] at h
    rw [if_neg (by omega : ¬(pos + (sec.offset - pos) > sec.offset ∧
      sec.offset ≠ 0))] at h
    split at h
    next e hb => cases h
    next body hb =>
      split at h
      next e2 hr => cases h
      next bs pend2 hr =>
        have hbytes : List.replicate (sec.offset - pos) 0 ++ body ++ bs =
            bytes := by
          have := congrArg Prod.fst (Except.ok.inj h)
          simpa using this
        rw [← hbytes, List.append_assoc,
          List.take_left' (List.length_replicate _ _)]
  · intro q hq
    simp [ZeroToOffset, Nat.sub_eq_zero_of_le hq]

/-- Witness instantiating the C6 theorem: position 5 is already past the
nonzero declared offset 3, so the write fails. -/
theorem writeSections_offset_discipline_witness :
    writeSections true (fun _ => Except.ok []) 5 [smallSection] =
      .error sectionOffsetErr :=
  (writeSections_offset_discipline true (fun _ => Except.ok []) 5
    smallSection []).1 (by decide) (by decide)

/-! ### C8: contentless sections emit the 0xDEADBEEF fill -/

theorem flatten_replicate_length (l : List Nat) (n : Nat) :
    (List.flatten (List.replicate n l)).length = n * l.length := by
  induction n with
  | zero => simp
  | succ n ih =>
    rw [List.replicate_succ, List.flatten_cons, List.length_append, ih]
    ring

theorem flatten_replicate_getElem (l : List Nat) (h4 : l.length = 4) :
    ∀ (n i : Nat), i < 4 * n →
      (List.flatten (List.replicate n l))[i]? = l[i % 4]? := by
  intro n
  induction n with
  | zero => intro i h; omega
  | succ n ih =>
    intro i h
    rw [List.replicate_succ, List.flatten_cons]
    by_cases hi : i < 4
    · rw [List.getElem?_append_left (by omega)]
      congr 1
      omega
    · rw [List.getElem?_append_right (by omega : l.length ≤ i), h4,
        ih (i - 4) (by omega)]
      congr 1
      omega

theorem wordBytesHost_length (hostLE : Bool) (w : Nat) :
    (wordBytesHost hostLE w).length = 4 := by
  cases hostLE <;> rfl

/-- C8 (amended): a non-virtual section without inline content that is not
in a `__DWARF`-named segment emits exactly its declared size in bytes,
namely the repeating host-byte-order image of the 32-bit value 0xDEADBEEF
truncated to the declared size — bytes DE AD BE EF on a big-endian host and
EF BE AD DE on a little-endian host. -/
theorem emitSectionBody_deadbeef_fill (hostLE : Bool)
    (dwarf : String → Except String (List Nat)) (sec : Section)
    (hseg : sec.segname ≠ "__DWARF")
    (hvirt : isVirtualSection (sec.flags &&& 0xff) = false)
    (hcontent : sec.content = none) :
    emitSectionBody hostLE dwarf sec = .ok (Fill hostLE sec.size 0xDEADBEEF) ∧
    (Fill hostLE sec.size 0xDEADBEEF).length = sec.size ∧
    ∀ i, i < sec.size →
      (Fill hostLE sec.size 0xDEADBEEF)[i]? =
        (wordBytesHost hostLE 0xDEADBEEF)[i % 4]? := by
  have hflat : (List.flatten (List.replicate (sec.size / 4 + 1)
      (wordBytesHost hostLE 0xDEADBEEF))).length = 4 * (sec.size / 4 + 1) := by
    rw [flatten_replicate_length, wordBytesHost_length]
    ring
  refine ⟨?_, ?_, ?_⟩
  · simp [emitSectionBody, beq_eq_false_iff_ne.mpr hseg, hvirt, hcontent]
  · rw [Fill, List.length_take, hflat]
    omega
  · intro i hi
    rw [Fill, List.getElem?_take_of_lt hi,
      flatten_replicate_getElem _ (wordBytesHost_length hostLE 0xDEADBEEF)
        (sec.size / 4 + 1) i (by omega)]

/-- C8 counterexample: on a little-endian host a contentless 12-byte section
does not emit the byte sequence DE AD BE EF repeating — the actual bytes are
the host byte order EF BE AD DE repeating. -/
theorem emitSectionBody_deadbeef_fill_counterexample :
    emitSectionBody true (fun _ => Except.ok []) dataSection ≠
      Except.ok [0xDE, 0xAD, 0xBE, 0xEF, 0xDE, 0xAD, 0xBE, 0xEF,
        0xDE, 0xAD, 0xBE, 0xEF] := by
  intro h
  have hval : emitSectionBody true (fun _ => Except.ok []) dataSection =
      Except.ok [0xEF, 0xBE, 0xAD, 0xDE, 0xEF, 0xBE, 0xAD, 0xDE,
        0xEF, 0xBE, 0xAD, 0xDE] := by rfl
  rw [hval] at h
  exact absurd (Except.ok.inj h) (by decide)

/-- Witness instantiating the amended C8 theorem on `dataSection` for a
big-endian host. -/
theorem emitSectionBody_deadbeef_fill_witness :
    emitSectionBody false (fun _ => Except.ok []) dataSection =
      .ok (Fill false dataSection.size 0xDEADBEEF) :=
  (emitSectionBody_deadbeef_fill false (fun _ => Except.ok []) dataSection
    (by decide) (by decide) rfl).1


/-! ### C5: plain relocation bit packing -/

theorem b2n_le_one (b : Bool) : b2n b ≤ 1 := by
  cases b <;> simp [b2n]

theorem lor_add_small_left (a b k : Nat) (h : a < 2 ^ k) :
    a ||| (b <<< k) = b * 2 ^ k + a := by
  rw [Nat.shiftLeft_eq, Nat.lor_comm, Nat.mul_comm b (2 ^ k)]
  exact (Nat.mul_add_lt_is_or h b).symm

theorem lor_add_div (a b k : Nat) (ha : a % 2 ^ k = 0) (hb : b < 2 ^ k) :
    a ||| b = a + b := by
  have h1 : 2 ^ k * (a / 2 ^ k) = a :=
    Nat.mul_div_cancel' (Nat.dvd_of_mod_eq_zero ha)
  calc a ||| b = 2 ^ k * (a / 2 ^ k) ||| b := by rw [h1]
    _ = 2 ^ k * (a / 2 ^ k) + b := (Nat.mul_add_lt_is_or hb _).symm
    _ = a + b := by rw [h1]

theorem extractLE (w sym pc len ext ty : Nat)
    (hw : w = ty * 2 ^ 28 + (ext * 2 ^ 27 + (len * 2 ^ 25 + (pc * 2 ^ 24 + sym))))
    (hsym : sym < 2 ^ 24) (hpc : pc ≤ 1) (hlen : len < 4) (hext : ext ≤ 1)
    (_hty : ty < 16) :
    w % 2 ^ 24 = sym ∧ w / 2 ^ 24 % 2 = pc ∧ w / 2 ^ 25 % 4 = len ∧
      w / 2 ^ 27 % 2 = ext ∧ w / 2 ^ 28 = ty := by
  subst hw
  refine ⟨?_, ?_, ?_, ?_, ?_⟩ <;> omega

theorem extractBE (w sym pc len ext ty : Nat)
    (hw : w = sym * 2 ^ 8 + (pc * 2 ^ 7 + (len * 2 ^ 5 + (ext * 2 ^ 4 + ty))))
    (_hsym : sym < 2 ^ 24) (hpc : pc ≤ 1) (hlen : len < 4) (hext : ext ≤ 1)
    (hty : ty < 16) :
    w % 2 ^ 4 = ty ∧ w / 2 ^ 4 % 2 = ext ∧ w / 2 ^ 5 % 4 = len ∧
      w / 2 ^ 7 % 2 = pc ∧ w / 2 ^ 8 = sym := by
  subst hw
  refine ⟨?_, ?_, ?_, ?_, ?_⟩ <;> omega

theorem packLE (sym pc len ext ty : Nat) (hsym : sym < 2 ^ 24) (hpc : pc ≤ 1)
    (hlen : len < 4) (hext : ext ≤ 1) (_hty : ty < 16) :
    sym ||| pc <<< 24 ||| len <<< 25 ||| ext <<< 27 ||| ty <<< 28 =
      ty * 2 ^ 28 + (ext * 2 ^ 27 + (len * 2 ^ 25 + (pc * 2 ^ 24 + sym))) := by
  rw [lor_add_small_left sym pc 24 hsym,
    lor_add_small_left _ len 25 (by omega),
    lor_add_small_left _ ext 27 (by omega),
    lor_add_small_left _ ty 28 (by omega)]

theorem packBE (sym pc len ext ty : Nat) (_hsym : sym < 2 ^ 24) (hpc : pc ≤ 1)
    (hlen : len < 4) (hext : ext ≤ 1) (hty : ty < 16) :
    sym <<< 8 ||| pc <<< 7 ||| len <<< 5 ||| ext <<< 4 ||| ty =
      sym * 2 ^ 8 + (pc * 2 ^ 7 + (len * 2 ^ 5 + (ext * 2 ^ 4 + ty))) := by
  simp only [Nat.shiftLeft_eq]
  rw [lor_add_div (sym * 2 ^ 8) (pc * 2 ^ 7) 8 (by omega) (by omega),
    lor_add_div _ (len * 2 ^ 5) 7 (by omega) (by omega),
    lor_add_div _ (ext * 2 ^ 4) 5 (by omega) (by omega),
    lor_add_div _ ty 4 (by omega) hty]
  omega

/-- C5: for every in-range plain relocation, word0 of the record is the
32-bit address and word1 is bit-packed in the endianness-selected layout:
little-endian targets carry symbolnum in bits 0-23, the pc-rel flag in bit
24, the length code in bits 25-26, the extern flag in bit 27 and the type in
bits 28-31; big-endian targets carry the type in bits 0-3, extern in bit 4,
length in bits 5-6, pc-rel in bit 7 and symbolnum in bits 8-31.  The two
layouts are mirrored field positions, not byte swaps of each other
(exhibited on `mirrorReloc`), and writeRelocations byte-swaps the whole
record exactly when the declared endianness differs from the host byte
order. -/
theorem makeRelocationInfo_layout (r : Relocation)
    (hscat : r.is_scattered = false)
    (hsym : r.symbolnum < 2 ^ 24) (hlen : r.length < 4) (hty : r.rtype < 16) :
    ((makeRelocationInfo r true).1 = r.address % 2 ^ 32 ∧
      (makeRelocationInfo r true).2 % 2 ^ 24 = r.symbolnum ∧
      (makeRelocationInfo r true).2 / 2 ^ 24 % 2 = b2n r.is_pcrel ∧
      (makeRelocationInfo r true).2 / 2 ^ 25 % 4 = r.length ∧
      (makeRelocationInfo r true).2 / 2 ^ 27 % 2 = b2n r.is_ext ∧
      (makeRelocationInfo r true).2 / 2 ^ 28 = r.rtype) ∧
    ((makeRelocationInfo r false).1 = r.address % 2 ^ 32 ∧
      (makeRelocationInfo r false).2 % 2 ^ 4 = r.rtype ∧
      (makeRelocationInfo r false).2 / 2 ^ 4 % 2 = b2n r.is_ext ∧
      (makeRelocationInfo r false).2 / 2 ^ 5 % 4 = r.length ∧
      (makeRelocationInfo r false).2 / 2 ^ 7 % 2 = b2n r.is_pcrel ∧
      (makeRelocationInfo r false).2 / 2 ^ 8 = r.symbolnum) ∧
    (makeRelocationInfo mirrorReloc false).2 ≠
      bswap32 (makeRelocationInfo mirrorReloc true).2 ∧
    (∀ isLE hostLE : Bool,
      emitRelocationRecord isLE hostLE r =
        if isLE != hostLE then
          swapRelocationRecord (makeRelocationInfo r isLE)
        else makeRelocationInfo r isLE) := by
  have hpc := b2n_le_one r.is_pcrel
  have hext := b2n_le_one r.is_ext
  have hsym32 : r.symbolnum % 2 ^ 32 = r.symbolnum :=
    Nat.mod_eq_of_lt (by omega)
  have hlen8 : r.length % 2 ^ 8 = r.length := Nat.mod_eq_of_lt (by omega)
  have hty8 : r.rtype % 2 ^ 8 = r.rtype := Nat.mod_eq_of_lt (by omega)
  have hlen25 : (r.length <<< 25) % 2 ^ 32 = r.length <<< 25 :=
    Nat.mod_eq_of_lt (by rw [Nat.shiftLeft_eq]; omega)
  have hty28 : (r.rtype <<< 28) % 2 ^ 32 = r.rtype <<< 28 :=
    Nat.mod_eq_of_lt (by rw [Nat.shiftLeft_eq]; omega)
  have hsym8 : (r.symbolnum <<< 8) % 2 ^ 32 = r.symbolnum <<< 8 :=
    Nat.mod_eq_of_lt (by rw [Nat.shiftLeft_eq]; omega)
  have hrawLE : (makeRelocationInfo r true).2 =
      r.symbolnum % 2 ^ 32 ||| b2n r.is_pcrel <<< 24 |||
        (r.length % 2 ^ 8) <<< 25 % 2 ^ 32 ||| b2n r.is_ext <<< 27 |||
        (r.rtype % 2 ^ 8) <<< 28 % 2 ^ 32 := rfl
  have hrawBE : (makeRelocationInfo r false).2 =
      (r.symbolnum % 2 ^ 32) <<< 8 % 2 ^ 32 ||| b2n r.is_pcrel <<< 7 |||
        (r.length % 2 ^ 8) <<< 5 ||| b2n r.is_ext <<< 4 |||
        r.rtype % 2 ^ 8 := rfl
  have haddLE : (makeRelocationInfo r true).2 =
      r.rtype * 2 ^ 28 + (b2n r.is_ext * 2 ^ 27 +
        (r.length * 2 ^ 25 + (b2n r.is_pcrel * 2 ^ 24 + r.symbolnum))) := by
    rw [hrawLE, hsym32, hlen8, hty8, hlen25, hty28,
      packLE r.symbolnum (b2n r.is_pcrel) r.length (b2n r.is_ext) r.rtype
        hsym hpc hlen hext hty]
  have haddBE : (makeRelocationInfo r false).2 =
      r.symbolnum * 2 ^ 8 + (b2n r.is_pcrel * 2 ^ 7 +
        (r.length * 2 ^ 5 + (b2n r.is_ext * 2 ^ 4 + r.rtype))) := by
    rw [hrawBE, hsym32, hlen8, hty8, hsym8,
      packBE r.symbolnum (b2n r.is_pcrel) r.length (b2n r.is_ext) r.rtype
        hsym hpc hlen hext hty]
  have hLE := extractLE _ r.symbolnum (b2n r.is_pcrel) r.length
    (b2n r.is_ext) r.rtype haddLE hsym hpc hlen hext hty
  have hBE := extractBE _ r.symbolnum (b2n r.is_pcrel) r.length
    (b2n r.is_ext) r.rtype haddBE hsym hpc hlen hext hty
  exact ⟨⟨rfl, hLE.1, hLE.2.1, hLE.2.2.1, hLE.2.2.2.1, hLE.2.2.2.2⟩,
    ⟨rfl, hBE.1, hBE.2.1, hBE.2.2.1, hBE.2.2.2.1, hBE.2.2.2.2⟩,
    by decide, fun isLE hostLE => by simp [emitRelocationRecord, hscat]⟩

/-- Witness instantiating the C5 theorem on `sampleReloc` (symbolnum 5,
pc-rel, length 2, type 9). -/
theorem makeRelocationInfo_layout_witness :
    (makeRelocationInfo sampleReloc true).2 % 2 ^ 24 = sampleReloc.symbolnum :=
  (makeRelocationInfo_layout sampleReloc rfl (by decide) (by decide)
    (by decide)).1.2.1

end Emitter
